import Mathlib

/-!
# APOGEE Orientation Game — verification of the specification against the code

Shallow embedding of the repository's core logic:
* `utils/shared.py` — nickname generator, leaderboard store (`load_leaderboard`,
  `add_score`), timestamp formatting;
* `pages/mission_game.py` — mission grading and terminal-render persistence;
* `pages/quiz_game.py` — quiz state machine, scoring, terminal-render persistence;
* `streamlit_app.py` — leaderboard ranking (`sorted_missions`, `sorted_quiz`).

Python strings are modelled as lists of character code points (`PyStr`), with the
ASCII behaviour of `str.lower`/`str.upper`/`str.isalpha`/`str.strip`.
-/

namespace Apogee

/-- A Python string, as its list of character code points. -/
abbrev PyStr := List Nat

/-- Code points of a Lean string literal, to transcribe Python literals. -/
def ofStr (s : String) : PyStr := s.data.map Char.toNat

/-- ASCII whitespace, as recognised by Python `str.strip`/`str.split`. -/
def pyIsSpace (c : Nat) : Bool :=
  decide (c = 32 ∨ c = 9 ∨ c = 10 ∨ c = 11 ∨ c = 12 ∨ c = 13)

/-- Python `str.isupper` on a single code point (ASCII). -/
def pyIsUpper (c : Nat) : Bool := decide (65 ≤ c ∧ c ≤ 90)

/-- Python `str.islower` on a single code point (ASCII). -/
def pyIsLower (c : Nat) : Bool := decide (97 ≤ c ∧ c ≤ 122)

/-- Python `str.isalpha` on a single code point (ASCII). -/
def pyIsAlpha (c : Nat) : Bool := pyIsUpper c || pyIsLower c

/-- Python `str.lower` on a single code point (ASCII). -/
def pyToLower (c : Nat) : Nat := if 65 ≤ c ∧ c ≤ 90 then c + 32 else c

/-- Python `str.upper` on a single code point (ASCII). -/
def pyToUpper (c : Nat) : Nat := if 97 ≤ c ∧ c ≤ 122 then c - 32 else c

/-- Python `str.strip()`: drop whitespace from both ends. -/
def pyStrip (s : PyStr) : PyStr :=
  ((s.dropWhile pyIsSpace).reverse.dropWhile pyIsSpace).reverse

/-- Python `str.capitalize()`: first character upper-cased, the rest lower-cased. -/
def pyCapitalize : PyStr → PyStr
  | [] => []
  | c :: cs => pyToUpper c :: cs.map pyToLower

/-- The fixed `prefixes` list of `generate_fun_nickname` (utils/shared.py). -/
def prefixes : List PyStr :=
  [ofStr "Zap", ofStr "Neo", ofStr "Geo", ofStr "Vex", ofStr "Blu",
   ofStr "Zen", ofStr "Pyro", ofStr "Quip", ofStr "Nova", ofStr "Tiki"]

/-- The fixed `suffixes` list of `generate_fun_nickname` (utils/shared.py). -/
def suffixes : List PyStr :=
  [ofStr "tron", ofStr "pop", ofStr "bit", ofStr "do", ofStr "ster",
   ofStr "zo", ofStr "ly", ofStr "ix", ofStr "o", ofStr "a"]

/-- `generate_fun_nickname` from utils/shared.py:
`base = (name.strip().split()[0] if name.strip() else "Cadet").lower()`;
`base = "".join(ch for ch in base if ch.isalpha())[:5].capitalize()`;
`h = sum(ord(c) for c in name) if name else 999`;
result `prefixes[h % 10] + base + suffixes[(h // 10) % 10]`.
(`name.strip().split()[0]` is the run of non-whitespace characters that starts
the stripped string, here `takeWhile`.) -/
def generate_fun_nickname (name : PyStr) : PyStr :=
  let stripped := pyStrip name
  let tok := if stripped.isEmpty then ofStr "Cadet"
             else stripped.takeWhile (fun c => !pyIsSpace c)
  let base := pyCapitalize (((tok.map pyToLower).filter pyIsAlpha).take 5)
  let h := if name.isEmpty then 999 else name.sum
  let p := prefixes.getD (h % prefixes.length) []
  let s := suffixes.getD ((h / prefixes.length) % suffixes.length) []
  p ++ base ++ s

/-- Capitalizing only the first letter, leaving the rest of the string unchanged. -/
def capFirst : PyStr → PyStr
  | [] => []
  | c :: cs => pyToUpper c :: cs

/-- The nickname as the claim words it: base is the first whitespace-separated
token of the trimmed name (literal "Cadet" if the trimmed name is empty) with
non-alphabetic characters removed, truncated to at most 5 leading characters,
with the first letter capitalized — the remaining characters untouched. -/
def claimNickname (name : PyStr) : PyStr :=
  let stripped := pyStrip name
  let tok := if stripped.isEmpty then ofStr "Cadet"
             else stripped.takeWhile (fun c => !pyIsSpace c)
  let base := capFirst ((tok.filter pyIsAlpha).take 5)
  let h := if name.isEmpty then 999 else name.sum
  let p := prefixes.getD (h % prefixes.length) []
  let s := suffixes.getD ((h / prefixes.length) % suffixes.length) []
  p ++ base ++ s

/-- The nickname with the amended base: non-alphabetic characters removed,
truncated to at most 5 leading characters, then first letter upper-cased and
every later letter forced to lower case (Python `str.capitalize` semantics). -/
def amendedNickname (name : PyStr) : PyStr :=
  let stripped := pyStrip name
  let tok := if stripped.isEmpty then ofStr "Cadet"
             else stripped.takeWhile (fun c => !pyIsSpace c)
  let base := pyCapitalize ((tok.filter pyIsAlpha).take 5)
  let h := if name.isEmpty then 999 else name.sum
  let p := prefixes.getD (h % prefixes.length) []
  let s := suffixes.getD ((h / prefixes.length) % suffixes.length) []
  p ++ base ++ s

lemma pyIsAlpha_pyToLower (c : Nat) : pyIsAlpha (pyToLower c) = pyIsAlpha c := by
  by_cases h : 65 ≤ c ∧ c ≤ 90
  · have h1 : pyToLower c = c + 32 := by unfold pyToLower; rw [if_pos h]
    rw [h1, Bool.eq_iff_iff]
    simp only [pyIsAlpha, pyIsUpper, pyIsLower, Bool.or_eq_true, decide_eq_true_eq]
    omega
  · have h1 : pyToLower c = c := by unfold pyToLower; rw [if_neg h]
    rw [h1]

lemma pyToLower_pyToLower (c : Nat) : pyToLower (pyToLower c) = pyToLower c := by
  by_cases h : 65 ≤ c ∧ c ≤ 90
  · have h1 : pyToLower c = c + 32 := by unfold pyToLower; rw [if_pos h]
    rw [h1]; unfold pyToLower; rw [if_neg (by omega)]
  · have h1 : pyToLower c = c := by unfold pyToLower; rw [if_neg h]
    rw [h1, h1]

lemma pyToUpper_pyToLower (c : Nat) : pyToUpper (pyToLower c) = pyToUpper c := by
  by_cases h : 65 ≤ c ∧ c ≤ 90
  · have h1 : pyToLower c = c + 32 := by unfold pyToLower; rw [if_pos h]
    rw [h1]; unfold pyToUpper
    rw [if_pos (by omega), if_neg (by omega)]
    omega
  · have h1 : pyToLower c = c := by unfold pyToLower; rw [if_neg h]
    rw [h1]

lemma pyCapitalize_map_pyToLower (l : PyStr) :
    pyCapitalize (l.map pyToLower) = pyCapitalize l := by
  cases l with
  | nil => rfl
  | cons c cs =>
    simp only [List.map_cons, pyCapitalize, pyToUpper_pyToLower, List.map_map]
    congr 1
    exact List.map_congr_left fun a _ => pyToLower_pyToLower a

lemma pyCapitalize_lower_filter_take (tok : PyStr) :
    pyCapitalize (((tok.map pyToLower).filter pyIsAlpha).take 5)
      = pyCapitalize ((tok.filter pyIsAlpha).take 5) := by
  rw [List.filter_map]
  have h1 : List.filter (pyIsAlpha ∘ pyToLower) tok = List.filter pyIsAlpha tok :=
    List.filter_congr fun c _ => by
      simp only [Function.comp_apply, pyIsAlpha_pyToLower]
  rw [h1, ← List.map_take, pyCapitalize_map_pyToLower]

/-- C1 counterexample: on the input "JOHN" the code returns "VexJohntron"
(Python `str.capitalize` forces the tail of the base to lower case), while the
claim's base "JOHN" with only its first letter capitalized stays "JOHN", so the
claimed value is "VexJOHNtron": the claim as stated fails on "JOHN". -/
theorem generate_fun_nickname_claim_false :
    generate_fun_nickname (ofStr "JOHN") = ofStr "VexJohntron" ∧
    claimNickname (ofStr "JOHN") = ofStr "VexJOHNtron" ∧
    generate_fun_nickname (ofStr "JOHN") ≠ claimNickname (ofStr "JOHN") := by
  decide

/-- C1 (amended): the nickname generator is a pure deterministic function of its
input: for every name the result is `prefixes[h mod 10] ++ base ++
suffixes[(h div 10) mod 10]` with no separator, where base is the first
whitespace-separated token of the trimmed name ("Cadet" if the trimmed name is
empty) with non-alphabetic characters removed, truncated to at most 5 leading
characters, then with the first letter upper-cased and all later letters forced
to lower case (Python `str.capitalize`); h is the code-point sum of the original
untrimmed name (999 when the name is empty); and `generate("")` equals the fixed
value "TikiCadeta" determined by h = 999. -/
theorem generate_fun_nickname_amended :
    (∀ name : PyStr, generate_fun_nickname name = amendedNickname name) ∧
    generate_fun_nickname (ofStr "") = ofStr "TikiCadeta" := by
  constructor
  · intro name
    simp only [generate_fun_nickname, amendedNickname]
    rw [pyCapitalize_lower_filter_take]
  · decide

/-- C10: for every input string — including ones whose first token has no
alphabetic characters, so the cleaned base is empty — `generate_fun_nickname`
returns a non-empty string that begins with one of the ten fixed name pre-parts
and ends with one of the ten fixed name end-parts; the function is total. -/
theorem generate_fun_nickname_total :
    ∀ name : PyStr,
      generate_fun_nickname name ≠ [] ∧
      (∃ p ∈ prefixes, ∃ rest, generate_fun_nickname name = p ++ rest) ∧
      (∃ s ∈ suffixes, ∃ rest, generate_fun_nickname name = rest ++ s) := by
  intro name
  obtain ⟨p, hp, s, hs, base, hgen⟩ :
      ∃ p ∈ prefixes, ∃ s ∈ suffixes, ∃ base,
        generate_fun_nickname name = p ++ base ++ s := by
    have hlp : (if name.isEmpty then 999 else name.sum) % prefixes.length
        < prefixes.length := Nat.mod_lt _ (by decide)
    have hls : ((if name.isEmpty then 999 else name.sum) / prefixes.length)
        % suffixes.length < suffixes.length := Nat.mod_lt _ (by decide)
    refine ⟨_, ?_, _, ?_, _, rfl⟩
    · rw [List.getD_eq_getElem _ _ hlp]; exact List.getElem_mem hlp
    · rw [List.getD_eq_getElem _ _ hls]; exact List.getElem_mem hls
  have hall : ∀ x ∈ prefixes, x ≠ [] := by decide
  have hpne : p ≠ [] := hall p hp
  refine ⟨?_, ⟨p, hp, base ++ s, by rw [hgen, List.append_assoc]⟩,
          ⟨s, hs, p ++ base, hgen⟩⟩
  rw [hgen]
  simp only [ne_eq, List.append_eq_nil]
  exact fun h => hpne h.1.1

/-! ## Leaderboard entries and ranking (streamlit_app.py) -/

/-- One leaderboard record `{name, branch, nickname, score, time}`. -/
structure Entry where
  name : String
  branch : String
  nickname : String
  score : Int
  time : String
deriving DecidableEq

/-- Python string `<=`: lexicographic comparison of the code-point sequences. -/
def charListLE : List Char → List Char → Bool
  | [], _ => true
  | _ :: _, [] => false
  | a :: as, b :: bs =>
    if a.toNat < b.toNat then true
    else if b.toNat < a.toNat then false
    else charListLE as bs

/-- Python `s <= t` on strings. -/
def strLE (s t : String) : Bool := charListLE s.data t.data

lemma charListLE_total :
    ∀ s t : List Char, charListLE s t = true ∨ charListLE t s = true := by
  intro s
  induction s with
  | nil => intro t; exact Or.inl rfl
  | cons a as ih =>
    intro t
    cases t with
    | nil => exact Or.inr rfl
    | cons b bs =>
      by_cases h1 : a.toNat < b.toNat
      · left; simp only [charListLE]; rw [if_pos h1]
      · by_cases h2 : b.toNat < a.toNat
        · right; simp only [charListLE]; rw [if_pos h2]
        · rcases ih bs with h | h
          · left; simp only [charListLE]; rw [if_neg h1, if_neg h2]; exact h
          · right; simp only [charListLE]; rw [if_neg h2, if_neg h1]; exact h

lemma charListLE_trans :
    ∀ s t u : List Char, charListLE s t = true → charListLE t u = true →
      charListLE s u = true := by
  intro s
  induction s with
  | nil => intro t u _ _; exact rfl
  | cons a as ih =>
    intro t u hst htu
    cases t with
    | nil => simp [charListLE] at hst
    | cons b bs =>
      cases u with
      | nil => simp [charListLE] at htu
      | cons c cs =>
        simp only [charListLE] at hst htu ⊢
        by_cases hab : a.toNat < b.toNat
        · by_cases hbc : b.toNat < c.toNat
          · rw [if_pos (show a.toNat < c.toNat by omega)]
          · by_cases hcb : c.toNat < b.toNat
            · rw [if_neg hbc, if_pos hcb] at htu; exact absurd htu (by simp)
            · rw [if_pos (show a.toNat < c.toNat by omega)]
        · by_cases hba : b.toNat < a.toNat
          · rw [if_neg hab, if_pos hba] at hst; exact absurd hst (by simp)
          · rw [if_neg hab, if_neg hba] at hst
            by_cases hbc : b.toNat < c.toNat
            · rw [if_pos (show a.toNat < c.toNat by omega)]
            · by_cases hcb : c.toNat < b.toNat
              · rw [if_neg hbc, if_pos hcb] at htu; exact absurd htu (by simp)
              · rw [if_neg hbc, if_neg hcb] at htu
                rw [if_neg (show ¬ a.toNat < c.toNat by omega),
                  if_neg (show ¬ c.toNat < a.toNat by omega)]
                exact ih bs cs hst htu

/-- The mission-game sort key, from
`sorted(data["mission_game"], key=lambda x: (-x["score"], x.get("time", "")))`:
ascending lexicographic order on the pair `(-score, time)`. -/
def missionKeyLE (a b : Entry) : Bool :=
  decide (-a.score < -b.score) || (decide (-a.score = -b.score) && strLE a.time b.time)

/-- The quiz-game sort key, from
`sorted(data["quiz_game"], key=lambda x: -x["score"])`: ascending `-score`. -/
def quizKeyLE (a b : Entry) : Bool :=
  decide (-a.score ≤ -b.score)

/-- `sorted_missions` from streamlit_app.py: Python `sorted` is the stable sort
by the key order, here `mergeSort` with `missionKeyLE`. -/
def sorted_missions (entries : List Entry) : List Entry :=
  entries.mergeSort missionKeyLE

/-- `sorted_quiz` from streamlit_app.py. -/
def sorted_quiz (entries : List Entry) : List Entry :=
  entries.mergeSort quizKeyLE

/-- `sorted_missions[:10]`, the entries the mission leaderboard tab renders. -/
def rank_mission (entries : List Entry) : List Entry :=
  (sorted_missions entries).take 10

/-- `sorted_quiz[:10]`, the entries the quiz leaderboard tab renders. -/
def rank_quiz (entries : List Entry) : List Entry :=
  (sorted_quiz entries).take 10

lemma missionKeyLE_trans (a b c : Entry) :
    missionKeyLE a b = true → missionKeyLE b c = true → missionKeyLE a c = true := by
  simp only [missionKeyLE, strLE, Bool.or_eq_true, Bool.and_eq_true, decide_eq_true_eq]
  intro hab hbc
  rcases hab with h1 | ⟨h1, h1'⟩ <;> rcases hbc with h2 | ⟨h2, h2'⟩
  · exact Or.inl (by omega)
  · exact Or.inl (by omega)
  · exact Or.inl (by omega)
  · exact Or.inr ⟨by omega, charListLE_trans _ _ _ h1' h2'⟩

lemma missionKeyLE_total (a b : Entry) :
    (missionKeyLE a b || missionKeyLE b a) = true := by
  simp only [missionKeyLE, strLE, Bool.or_eq_true, Bool.and_eq_true, decide_eq_true_eq]
  rcases lt_trichotomy (-a.score) (-b.score) with h | h | h
  · exact Or.inl (Or.inl h)
  · rcases charListLE_total a.time.data b.time.data with h' | h'
    · exact Or.inl (Or.inr ⟨h, h'⟩)
    · exact Or.inr (Or.inr ⟨h.symm, h'⟩)
  · exact Or.inr (Or.inl h)

lemma quizKeyLE_trans (a b c : Entry) :
    quizKeyLE a b = true → quizKeyLE b c = true → quizKeyLE a c = true := by
  simp only [quizKeyLE, decide_eq_true_eq]; omega

lemma quizKeyLE_total (a b : Entry) : (quizKeyLE a b || quizKeyLE b a) = true := by
  simp only [quizKeyLE, Bool.or_eq_true, decide_eq_true_eq]; omega

/-- C4: `rank("mission_game", 10)` returns the first 10 entries of the
mission_game list sorted ascending (stably) by the pair `(-score, time)`: the
sorted list is a permutation of the input, it is pairwise ordered by
`missionKeyLE`, the rendered ranking is its first 10 entries, and hence no
returned entry has a lower score than an entry appearing after it, while among
entries of equal score the lexicographically earlier timestamp appears first. -/
theorem rank_mission_spec :
    ∀ entries : List Entry,
      (sorted_missions entries).Perm entries ∧
      List.Pairwise (fun a b => missionKeyLE a b = true) (sorted_missions entries) ∧
      rank_mission entries = (sorted_missions entries).take 10 ∧
      List.Pairwise
        (fun a b => ¬ a.score < b.score ∧ (a.score = b.score → strLE a.time b.time = true))
        (rank_mission entries) := by
  intro entries
  have hsorted : List.Pairwise (fun a b => missionKeyLE a b = true)
      (sorted_missions entries) :=
    List.sorted_mergeSort missionKeyLE_trans missionKeyLE_total entries
  refine ⟨List.mergeSort_perm entries _, hsorted, rfl, ?_⟩
  have h2 : List.Pairwise (fun a b => missionKeyLE a b = true) (rank_mission entries) :=
    List.Pairwise.sublist (List.take_sublist 10 _) hsorted
  refine h2.imp ?_
  intro a b hab
  simp only [missionKeyLE, strLE, Bool.or_eq_true, Bool.and_eq_true,
    decide_eq_true_eq] at hab
  constructor
  · rcases hab with h | ⟨h, _⟩ <;> omega
  · intro hscore
    rcases hab with h | ⟨_, h'⟩
    · omega
    · simpa [strLE] using h'

/-- C5: `rank("quiz_game", 10)` returns the first 10 entries of the quiz_game
list sorted by non-increasing score with no tie-break: the sorted list is a
permutation of the input, the returned entries are pairwise in non-increasing
score order, and the sort is stable — for every score value, the entries of
that score appear in the sorted list exactly in their original (insertion)
order, and the returned entries of that score form an initial segment of them. -/
theorem rank_quiz_spec :
    ∀ (entries : List Entry) (c : Int),
      (sorted_quiz entries).Perm entries ∧
      rank_quiz entries = (sorted_quiz entries).take 10 ∧
      List.Pairwise (fun a b => b.score ≤ a.score) (rank_quiz entries) ∧
      (sorted_quiz entries).filter (fun e => decide (e.score = c))
        = entries.filter (fun e => decide (e.score = c)) ∧
      ∃ t, entries.filter (fun e => decide (e.score = c))
        = (rank_quiz entries).filter (fun e => decide (e.score = c)) ++ t := by
  intro entries c
  have hsorted : List.Pairwise (fun a b => quizKeyLE a b = true) (sorted_quiz entries) :=
    List.sorted_mergeSort quizKeyLE_trans quizKeyLE_total entries
  have hperm : (sorted_quiz entries).Perm entries := List.mergeSort_perm entries _
  have hstab : (sorted_quiz entries).filter (fun e => decide (e.score = c))
      = entries.filter (fun e => decide (e.score = c)) := by
    have hpw : List.Pairwise (fun a b => quizKeyLE a b = true)
        (entries.filter (fun e => decide (e.score = c))) := by
      apply List.pairwise_of_forall_mem_list
      intro a ha b hb
      simp only [List.mem_filter, decide_eq_true_eq] at ha hb
      simp only [quizKeyLE, decide_eq_true_eq]
      omega
    have hsub : List.Sublist (entries.filter (fun e => decide (e.score = c)))
        (sorted_quiz entries) :=
      List.sublist_mergeSort quizKeyLE_trans quizKeyLE_total hpw
        (List.filter_sublist entries)
    have hsub2 : List.Sublist (entries.filter (fun e => decide (e.score = c)))
        ((sorted_quiz entries).filter (fun e => decide (e.score = c))) := by
      have h3 := hsub.filter (fun e => decide (e.score = c))
      rwa [List.filter_eq_self.mpr
        (fun a ha => (List.mem_filter.mp ha).2)] at h3
    exact (hsub2.eq_of_length ((hperm.filter _).length_eq.symm)).symm
  refine ⟨hperm, rfl, ?_, hstab, ?_⟩
  · have h2 : List.Pairwise (fun a b => quizKeyLE a b = true) (rank_quiz entries) :=
      List.Pairwise.sublist (List.take_sublist 10 _) hsorted
    refine h2.imp ?_
    intro a b hab
    simp only [quizKeyLE, decide_eq_true_eq] at hab
    omega
  · refine ⟨((sorted_quiz entries).drop 10).filter (fun e => decide (e.score = c)), ?_⟩
    calc entries.filter (fun e => decide (e.score = c))
        = (sorted_quiz entries).filter (fun e => decide (e.score = c)) := hstab.symm
      _ = ((sorted_quiz entries).take 10 ++ (sorted_quiz entries).drop 10).filter
            (fun e => decide (e.score = c)) := by rw [List.take_append_drop]
      _ = (rank_quiz entries).filter (fun e => decide (e.score = c))
            ++ ((sorted_quiz entries).drop 10).filter (fun e => decide (e.score = c)) := by
          rw [List.filter_append]; rfl

/-! ## Mission game (pages/mission_game.py) -/

/-- A mission definition: flavour text, icon, canonical ordered step list. -/
structure Mission where
  blurb : String
  emoji : String
  steps_correct : List String
deriving DecidableEq

/-- The fixed `MISSIONS` reference data of pages/mission_game.py. -/
def MISSIONS : List (String × Mission) :=
  [("Chandrayaan-2",
    { blurb := "🇮🇳 You are Mission Commander for Vikram lander\x27s final descent. Stabilize, slow down, align, and achieve soft touchdown.",
      emoji := "🌙",
      steps_correct :=
        ["🔄 Stabilize attitude using RCS thrusters",
         "⬇️ Reduce vertical descent rate",
         "🚀 Adjust main engine thrust for soft descent",
         "🎯 Align lander over safe landing site",
         "🛑 Final braking burn",
         "🏁 Touchdown and engine cutoff"] }),
   ("Apollo 11",
    { blurb := "🇺🇸 Guide Eagle to Tranquility Base. Navigate hazards, manage fuel consumption, and land manually.",
      emoji := "🌕",
      steps_correct :=
        ["🚀 Initiate powered descent (PDI)",
         "📡 Pitch over and acquire landing site",
         "🎮 Manual control to avoid boulder field",
         "⚡ Reduce vertical and horizontal velocity",
         "🚁 Final descent and hover",
         "🛑 Engine shutdown at touchdown"] }),
   ("Gaganyaan",
    { blurb := "🇮🇳 Indian crewed mission profile. Ensure nominal ascent, orbital insertion, and safe crew recovery.",
      emoji := "🛰️",
      steps_correct :=
        ["🚀 Liftoff and ascent monitoring",
         "💨 Max-Q passage and throttle management",
         "🔗 Stage separation and guidance to orbit",
         "👨‍🚀 Crew module separation",
         "🔥 De-orbit burn and re-entry",
         "🪂 Drogue then main parachute deployment and splashdown"] })]

/-- Mission grading, from the terminal render of pages/mission_game.py:
`is_correct = (state["selected_sequence"] == correct_sequence)` and
`state["score"] = 1 if is_correct else 0`. -/
def missionScore (selected correct_sequence : List String) : Nat :=
  if selected = correct_sequence then 1 else 0

/-- C2: on entering the terminal state the score is 1 iff the selected sequence
is exactly the mission's canonical step sequence, and 0 otherwise; any strictly
shorter selection — in particular every proper initial segment of the canonical
sequence — is graded 0. -/
theorem mission_grading_exact :
    ∀ m ∈ MISSIONS, ∀ selected : List String,
      (missionScore selected m.2.steps_correct = 1 ↔ selected = m.2.steps_correct) ∧
      (missionScore selected m.2.steps_correct = 0 ↔ selected ≠ m.2.steps_correct) ∧
      (selected.length < m.2.steps_correct.length →
        missionScore selected m.2.steps_correct = 0) ∧
      (∀ k, k < m.2.steps_correct.length →
        missionScore (m.2.steps_correct.take k) m.2.steps_correct = 0) := by
  intro m _ selected
  refine ⟨?_, ?_, ?_, ?_⟩
  · unfold missionScore
    by_cases h : selected = m.2.steps_correct
    · rw [if_pos h]; simp [h]
    · rw [if_neg h]; simp [h]
  · unfold missionScore
    by_cases h : selected = m.2.steps_correct
    · rw [if_pos h]; simp [h]
    · rw [if_neg h]; simp [h]
  · intro hlen
    unfold missionScore
    rw [if_neg]
    intro heq
    rw [heq] at hlen
    omega
  · intro k hk
    unfold missionScore
    rw [if_neg]
    intro heq
    have := congrArg List.length heq
    simp only [List.length_take] at this
    omega

/-- C2 witness: the empty selection is graded 0 against the first mission. -/
theorem mission_grading_exact_witness :
    missionScore [] (MISSIONS.get ⟨0, by decide⟩).2.steps_correct = 0 :=
  (mission_grading_exact _ (List.get_mem MISSIONS 0 (by decide)) []).2.2.1 (by decide)

/-! ## Leaderboard store (utils/shared.py) -/

/-- The persisted leaderboard document: a JSON object mapping game keys to
entry lists, modelled as an association list in key insertion order. -/
abbrev LBDoc := List (String × List Entry)

/-- The default document `{"mission_game": [], "quiz_game": []}`. -/
def emptyLeaderboard : LBDoc := [("mission_game", []), ("quiz_game", [])]

/-- `load_leaderboard` from utils/shared.py. `backing` is the file content
(`none` when `os.path.exists` is false); `parse` models `json.load`, returning
`none` exactly when reading or parsing raises, which the `except` clause turns
into the default document. -/
def load_leaderboard (backing : Option String) (parse : String → Option LBDoc) : LBDoc :=
  match backing with
  | none => emptyLeaderboard
  | some content =>
    match parse content with
    | some data => data
    | none => emptyLeaderboard

/-- Python dict lookup `data[k]` (with `[]` for a missing key) on the document. -/
def lookupLB (d : LBDoc) (k : String) : List Entry :=
  match d.find? (fun p => p.1 == k) with
  | some p => p.2
  | none => []

/-- `data.setdefault(game_key, []).append(entry)`: append to the named list in
place, creating the key at the end of the document when it is absent. -/
def setdefaultAppend : LBDoc → String → Entry → LBDoc
  | [], k, e => [(k, [e])]
  | (k1, v) :: rest, k, e =>
    if k1 = k then (k1, v ++ [e]) :: rest else (k1, v) :: setdefaultAppend rest k e

/-- A wall-clock reading, the fields `datetime.now()` formats. -/
structure DateTime where
  year : Nat
  month : Nat
  day : Nat
  hour : Nat
  minute : Nat
  second : Nat
deriving DecidableEq

/-- The decimal digit character for `n` (taken mod 10). -/
def digitChar (n : Nat) : Char :=
  if n % 10 = 0 then '0' else if n % 10 = 1 then '1' else if n % 10 = 2 then '2'
  else if n % 10 = 3 then '3' else if n % 10 = 4 then '4' else if n % 10 = 5 then '5'
  else if n % 10 = 6 then '6' else if n % 10 = 7 then '7' else if n % 10 = 8 then '8'
  else '9'

/-- Zero-padded two-digit decimal rendering (`%m`, `%d`, `%H`, `%M`, `%S`). -/
def pad2 (n : Nat) : List Char := [digitChar (n / 10), digitChar n]

/-- Zero-padded four-digit decimal rendering (`%Y`; `datetime` years are
at most 9999). -/
def pad4 (n : Nat) : List Char :=
  [digitChar (n / 1000), digitChar (n / 100), digitChar (n / 10), digitChar n]

/-- `datetime.now().strftime("%Y-%m-%d %H:%M:%S")` at clock reading `t`. -/
def strftimeYmdHMS (t : DateTime) : String :=
  String.mk (pad4 t.year ++ '-' :: pad2 t.month ++ '-' :: pad2 t.day
    ++ ' ' :: pad2 t.hour ++ ':' :: pad2 t.minute ++ ':' :: pad2 t.second)

/-- `add_score` from utils/shared.py at clock reading `now`: load the current
document, push the new entry onto the named sequence, and return the full
document that `save_leaderboard` persists as one whole-document overwrite. -/
def add_score (backing : Option String) (parse : String → Option LBDoc)
    (game_key name branch nickname : String) (score : Int) (now : DateTime) : LBDoc :=
  let data := load_leaderboard backing parse
  setdefaultAppend data game_key
    { name := name, branch := branch, nickname := nickname, score := score,
      time := strftimeYmdHMS now }

/-- A decimal digit code point. -/
def isDigitCP (c : Char) : Prop := 48 ≤ c.toNat ∧ c.toNat ≤ 57

/-- The string has the shape `YYYY-MM-DD HH:MM:SS`. -/
def isTimestampYmdHMS (s : String) : Prop :=
  ∃ y mo d h mi se : List Char,
    s.data = y ++ '-' :: mo ++ '-' :: d ++ ' ' :: h ++ ':' :: mi ++ ':' :: se ∧
    y.length = 4 ∧ mo.length = 2 ∧ d.length = 2 ∧ h.length = 2 ∧
    mi.length = 2 ∧ se.length = 2 ∧
    (∀ c ∈ y ++ mo ++ d ++ h ++ mi ++ se, isDigitCP c)

lemma isDigitCP_digitChar (n : Nat) : isDigitCP (digitChar n) := by
  unfold digitChar
  repeat' split
  all_goals exact ⟨by decide, by decide⟩

lemma isDigitCP_of_mem_pad2 (n : Nat) : ∀ c ∈ pad2 n, isDigitCP c := by
  intro c hc
  simp only [pad2, List.mem_cons, List.not_mem_nil, or_false] at hc
  rcases hc with h | h <;> subst h <;> exact isDigitCP_digitChar _

lemma isDigitCP_of_mem_pad4 (n : Nat) : ∀ c ∈ pad4 n, isDigitCP c := by
  intro c hc
  simp only [pad4, List.mem_cons, List.not_mem_nil, or_false] at hc
  rcases hc with h | h | h | h <;> subst h <;> exact isDigitCP_digitChar _

lemma strftimeYmdHMS_format (t : DateTime) : isTimestampYmdHMS (strftimeYmdHMS t) := by
  refine ⟨pad4 t.year, pad2 t.month, pad2 t.day, pad2 t.hour, pad2 t.minute,
    pad2 t.second, rfl, rfl, rfl, rfl, rfl, rfl, rfl, ?_⟩
  intro c hc
  rcases List.mem_append.mp hc with hc | h
  · rcases List.mem_append.mp hc with hc | h
    · rcases List.mem_append.mp hc with hc | h
      · rcases List.mem_append.mp hc with hc | h
        · rcases List.mem_append.mp hc with hc | h
          · exact isDigitCP_of_mem_pad4 _ _ hc
          · exact isDigitCP_of_mem_pad2 _ _ h
        · exact isDigitCP_of_mem_pad2 _ _ h
      · exact isDigitCP_of_mem_pad2 _ _ h
    · exact isDigitCP_of_mem_pad2 _ _ h
  · exact isDigitCP_of_mem_pad2 _ _ h

lemma lookupLB_cons (k1 : String) (v : List Entry) (rest : LBDoc) (k : String) :
    lookupLB ((k1, v) :: rest) k = if k1 = k then v else lookupLB rest k := by
  unfold lookupLB
  by_cases h : k1 = k
  · rw [List.find?_cons_of_pos _ (by simp [h]), if_pos h]
  · rw [List.find?_cons_of_neg _ (by simp [h]), if_neg h]

lemma lookupLB_setdefaultAppend_self (d : LBDoc) (k : String) (e : Entry) :
    lookupLB (setdefaultAppend d k e) k = lookupLB d k ++ [e] := by
  induction d with
  | nil => simp [setdefaultAppend, lookupLB_cons, lookupLB]
  | cons p rest ih =>
    obtain ⟨k1, v⟩ := p
    unfold setdefaultAppend
    by_cases h : k1 = k
    · rw [if_pos h, lookupLB_cons, lookupLB_cons, if_pos h, if_pos h]
    · rw [if_neg h, lookupLB_cons, lookupLB_cons, if_neg h, if_neg h]
      exact ih

lemma lookupLB_setdefaultAppend_other (d : LBDoc) (k : String) (e : Entry)
    (k2 : String) (h : k2 ≠ k) :
    lookupLB (setdefaultAppend d k e) k2 = lookupLB d k2 := by
  induction d with
  | nil =>
    rw [show setdefaultAppend [] k e = [(k, [e])] from rfl, lookupLB_cons,
      if_neg (fun hk => h hk.symm)]
  | cons p rest ih =>
    obtain ⟨k1, v⟩ := p
    unfold setdefaultAppend
    by_cases h1 : k1 = k
    · rw [if_pos h1, lookupLB_cons, lookupLB_cons,
        if_neg (by rw [h1]; exact fun hk => h hk.symm),
        if_neg (by rw [h1]; exact fun hk => h hk.symm)]
    · rw [if_neg h1, lookupLB_cons, lookupLB_cons]
      by_cases h2 : k1 = k2
      · rw [if_pos h2, if_pos h2]
      · rw [if_neg h2, if_neg h2]
        exact ih

/-- C6: `load_leaderboard` never propagates an error: a missing backing file
and unreadable/unparsable content both yield the default empty structure
`{"mission_game": [], "quiz_game": []}`, and parsable content is returned
as-is; the function is total over every backing-store condition. -/
theorem load_leaderboard_safe :
    ∀ (parse : String → Option LBDoc) (backing : Option String),
      (backing = none → load_leaderboard backing parse = emptyLeaderboard) ∧
      (∀ s, backing = some s → parse s = none →
        load_leaderboard backing parse = emptyLeaderboard) ∧
      (∀ s d, backing = some s → parse s = some d →
        load_leaderboard backing parse = d) := by
  intro parse backing
  refine ⟨?_, ?_, ?_⟩
  · rintro rfl; rfl
  · rintro s rfl hp; simp [load_leaderboard, hp]
  · rintro s d rfl hp; simp [load_leaderboard, hp]

/-- C6 witness: a missing file and a corrupt file both load as the default. -/
theorem load_leaderboard_safe_witness :
    load_leaderboard none (fun _ => none) = emptyLeaderboard ∧
    load_leaderboard (some "not json") (fun _ => none) = emptyLeaderboard :=
  ⟨(load_leaderboard_safe (fun _ => none) none).1 rfl,
   (load_leaderboard_safe (fun _ => none) (some "not json")).2.1 "not json" rfl rfl⟩

/-- C7: `add_score` appends the new entry at the end of the sequence stored
under `game_key`, leaves every other key's sequence unchanged, stamps the entry
with a `YYYY-MM-DD HH:MM:SS` timestamp string, and persists the whole updated
document back as one overwrite. -/
theorem add_score_frame :
    ∀ (backing : Option String) (parse : String → Option LBDoc)
      (game_key name branch nickname : String) (score : Int) (now : DateTime),
      lookupLB (add_score backing parse game_key name branch nickname score now)
          game_key
        = lookupLB (load_leaderboard backing parse) game_key ++
          [{ name := name, branch := branch, nickname := nickname, score := score,
             time := strftimeYmdHMS now }] ∧
      (∀ k, k ≠ game_key →
        lookupLB (add_score backing parse game_key name branch nickname score now) k
          = lookupLB (load_leaderboard backing parse) k) ∧
      isTimestampYmdHMS (strftimeYmdHMS now) := by
  intro backing parse game_key name branch nickname score now
  refine ⟨lookupLB_setdefaultAppend_self _ _ _, ?_, strftimeYmdHMS_format now⟩
  intro k hk
  exact lookupLB_setdefaultAppend_other _ _ _ _ hk

/-- C7 witness: a concrete append leaves the other partition unchanged. -/
theorem add_score_frame_witness :
    ("quiz_game" : String) ≠ "mission_game" ∧
    lookupLB (add_score none (fun _ => none) "mission_game" "Asha Rao" "ECE"
        "GeoAshao" 1 ⟨2025, 1, 2, 3, 4, 5⟩) "quiz_game"
      = lookupLB (load_leaderboard none (fun _ => none)) "quiz_game" :=
  ⟨by decide,
   (add_score_frame none (fun _ => none) "mission_game" "Asha Rao" "ECE"
     "GeoAshao" 1 ⟨2025, 1, 2, 3, 4, 5⟩).2.1 "quiz_game" (by decide)⟩

/-! ## Quiz game (pages/quiz_game.py) -/

/-- One quiz question of the static pool. -/
structure Question where
  id : String
  q : String
  options : List String
  answer_idx : Nat
  explain : String
deriving DecidableEq

/-- The fixed `QUIZ_POOL` reference data of pages/quiz_game.py. -/
def QUIZ_POOL : List Question :=
  [{ id := "q1",
     q := "On the Moon (g≈1.6 m/s²), you drop a tool from 3.6 m height. Approximate time to hit surface?",
     options := ["1.5 seconds", "2.1 seconds", "2.8 seconds", "3.0 seconds"],
     answer_idx := 1,
     explain := "Using t = √(2h/g) = √(2×3.6/1.6) ≈ 2.12 seconds" },
   { id := "q2",
     q := "If a LEO satellite doubles its orbital radius, its orbital speed becomes:",
     options := ["Same speed", "2× faster", "1/√2 slower", "√2 faster"],
     answer_idx := 2,
     explain := "Orbital speed v ∝ 1/√r, so doubling radius reduces speed by factor √2" },
   { id := "q3",
     q := "Complete the countdown code:\n```python\nimport time\nn = 10\nwhile n > 0:\n    print(n)\n    time.sleep(1)\n    n = n __ 1\nprint(\x27LIFTOFF!\x27)\n```",
     options := ["+ (plus)", "- (minus)", "* (multiply)", "/ (divide)"],
     answer_idx := 1,
     explain := "Need to decrement n, so n = n - 1 (or n -= 1)" },
   { id := "q4",
     q := "Which celestial body requires the highest escape velocity?",
     options := ["Moon", "Mars", "Earth", "Jupiter"],
     answer_idx := 3,
     explain := "Jupiter has the highest escape velocity (~59.5 km/s) due to its massive size" },
   { id := "q5",
     q := "What is the orbital period of a geostationary satellite?",
     options := ["12 hours", "24 hours", "36 hours", "48 hours"],
     answer_idx := 1,
     explain := "Geostationary satellites orbit in 24 hours to match Earth\x27s rotation" },
   { id := "q6",
     q := "The first artificial satellite launched by India was:",
     options := ["Rohini-1", "Aryabhata", "Bhaskara-1", "IRS-1A"],
     answer_idx := 1,
     explain := "Aryabhata was India\x27s first satellite, launched in 1975" },
   { id := "q7",
     q := "In space, the primary method of heat transfer is:",
     options := ["Conduction", "Convection", "Radiation", "All equally"],
     answer_idx := 2,
     explain := "In vacuum, only radiation can transfer heat (no medium for conduction/convection)" }]

/-- One recorded answer, as appended to `state["answers"]`. -/
structure Answer where
  user_answer : String
  correct : Bool
  time_left : Nat
  question_id : String
deriving DecidableEq

/-- The quiz session state `st.session_state["quiz_state"]`. The wall-clock
fields `start_time`/`question_start_time` are modelled by passing the computed
remaining time to the submit transition. -/
structure QuizState where
  questions : List Question
  current_question : Nat
  answers : List Answer
  quiz_complete : Bool
  data_saved : Bool
  selected_answer : Option String
  answer_submitted : Bool
deriving DecidableEq

/-- The fresh session state created on first render (with `questions` the
randomly sampled subset of the pool, kept abstract here). -/
def initQuizState (qs : List Question) : QuizState :=
  { questions := qs, current_question := 0, answers := [], quiz_complete := false,
    data_saved := false, selected_answer := none, answer_submitted := false }

/-- Placeholder used only below the invariant `current_question < questions.length`. -/
def defaultQuestion : Question :=
  { id := "", q := "", options := [], answer_idx := 0, explain := "" }

/-- `current_q_data = state["questions"][state["current_question"]]`. -/
def currentQuestion (s : QuizState) : Question :=
  s.questions.getD s.current_question defaultQuestion

/-- The submit action (explicit click or timeout) of the `Answering` render:
the answer is the tentatively selected option, defaulting to the question's
first option when the learner never touched the control; it is correct when
`options.index(user_answer) == answer_idx`; the record is appended. -/
def submitAnswer (s : QuizState) (time_left : Nat) : QuizState :=
  let q := currentQuestion s
  let user_answer := s.selected_answer.getD (q.options.getD 0 "")
  let is_correct := q.options.indexOf user_answer == q.answer_idx
  { s with
    answers := s.answers ++
      [{ user_answer := user_answer, correct := is_correct, time_left := time_left,
         question_id := q.id }],
    answer_submitted := true }

/-- The quiz session transitions, read off the render branches of
pages/quiz_game.py. `select` is the radio control while `Answering`; `submit`
fires on the submit click or on `time_left <= 0`; `next` is the
"Next Question" button (guarded by `current_question + 1 < len(questions)`);
`finish` is the "Finish Quiz" button of the last question. -/
inductive QuizStep : QuizState → QuizState → Prop
  | select (s : QuizState) (opt : String) :
      s.quiz_complete = false → s.answer_submitted = false →
      s.current_question < s.questions.length →
      opt ∈ (currentQuestion s).options →
      QuizStep s { s with selected_answer := some opt }
  | submit (s : QuizState) (time_left : Nat) :
      s.quiz_complete = false → s.answer_submitted = false →
      s.current_question < s.questions.length →
      QuizStep s (submitAnswer s time_left)
  | next (s : QuizState) :
      s.quiz_complete = false → s.answer_submitted = true →
      s.current_question + 1 < s.questions.length →
      QuizStep s { s with current_question := s.current_question + 1,
                          selected_answer := none, answer_submitted := false }
  | finish (s : QuizState) :
      s.quiz_complete = false → s.answer_submitted = true →
      ¬ s.current_question + 1 < s.questions.length →
      QuizStep s { s with quiz_complete := true }

/-- States a session that sampled `qs` can actually reach. -/
def QuizReachable (qs : List Question) (s : QuizState) : Prop :=
  Relation.ReflTransGen QuizStep (initQuizState qs) s

/-- `correct_count = sum(1 for ans in state["answers"] if ans["correct"])`. -/
def correct_count (s : QuizState) : Nat :=
  s.answers.countP (fun a => a.correct)

/-- The session invariant: the sampled questions are fixed, answers grow one
per question in question order, and never beyond the question count. -/
def QuizInv (qs : List Question) (s : QuizState) : Prop :=
  s.questions = qs ∧
  s.answers.length = s.current_question + (if s.answer_submitted then 1 else 0) ∧
  s.answers.length ≤ s.questions.length ∧
  (s.quiz_complete = true →
    s.answer_submitted = true ∧ s.questions.length ≤ s.current_question + 1)

lemma quizInv_init (qs : List Question) : QuizInv qs (initQuizState qs) := by
  refine ⟨rfl, rfl, by simp [initQuizState], ?_⟩
  intro h
  simp [initQuizState] at h

lemma quizInv_step {qs : List Question} {s t : QuizState}
    (hInv : QuizInv qs s) (hstep : QuizStep s t) : QuizInv qs t := by
  obtain ⟨hq, hlen, hle, hcomp⟩ := hInv
  cases hstep with
  | select opt h1 h2 h3 h4 =>
    have hnc : s.quiz_complete ≠ true := by rw [h1]; exact Bool.false_ne_true
    exact ⟨hq, hlen, hle, fun hc => absurd hc hnc⟩
  | submit tl h1 h2 h3 =>
    rw [h2] at hlen
    simp only [Bool.false_eq_true, if_false] at hlen
    have hnc : s.quiz_complete ≠ true := by rw [h1]; exact Bool.false_ne_true
    refine ⟨hq, ?_, ?_, fun hc => absurd hc hnc⟩
    · show (s.answers ++ [_]).length = s.current_question + if (true = true) then 1 else 0
      simp [hlen]
    · show (s.answers ++ [_]).length ≤ s.questions.length
      simp only [List.length_append, List.length_cons, List.length_nil]
      omega
  | next h1 h2 h3 =>
    rw [h2] at hlen
    simp only [if_pos rfl] at hlen
    have hnc : s.quiz_complete ≠ true := by rw [h1]; exact Bool.false_ne_true
    refine ⟨hq, ?_, by simpa using hle, fun hc => absurd hc hnc⟩
    show s.answers.length = s.current_question + 1 + if (false = true) then 1 else 0
    simp [hlen]
  | finish h1 h2 h3 =>
    refine ⟨hq, hlen, hle, fun _ => ⟨h2, ?_⟩⟩
    show s.questions.length ≤ s.current_question + 1
    omega

lemma quizInv_reachable {qs : List Question} {s : QuizState}
    (h : QuizReachable qs s) : QuizInv qs s := by
  induction h with
  | refl => exact quizInv_init qs
  | tail _ hstep ih => exact quizInv_step ih hstep

/-- The registered cadet profile handed to the game pages. -/
structure CadetProfile where
  name : String
  email : String
  branch : String
  astronaut_name : String
deriving DecidableEq

/-- The persistence-relevant part of the quiz terminal render ("Quiz Complete"
branch): when `data_saved` is still false it writes one sheet row (when the
sink is reachable) and calls
`add_score("quiz_game", name, branch, astronaut_name, correct_count)`, then
sets `data_saved`. Returns the updated state, the number of sink rows written
and the list of entries handed to `add_score`. -/
def quizRenderComplete (user : CadetProfile) (now : DateTime) (sink_ok : Bool)
    (s : QuizState) : QuizState × Nat × List Entry :=
  if s.data_saved then (s, 0, [])
  else
    ({ s with data_saved := true },
     if sink_ok then 1 else 0,
     [{ name := user.name, branch := user.branch, nickname := user.astronaut_name,
        score := (correct_count s : Int), time := strftimeYmdHMS now }])

/-- C3: for every completed quiz session, the entry `add_score` persists to the
leaderboard carries exactly the count of recorded answers whose correctness
flag is true; that count is at most the number of sampled questions (with one
recorded answer per sampled question), and there is no partial credit or time
bonus. -/
theorem quiz_score_is_correct_count :
    ∀ (qs : List Question) (s : QuizState) (user : CadetProfile) (now : DateTime)
      (sink_ok : Bool),
      QuizReachable qs s → s.quiz_complete = true → s.data_saved = false →
      (quizRenderComplete user now sink_ok s).2.2
        = [{ name := user.name, branch := user.branch,
             nickname := user.astronaut_name,
             score := (((s.answers.filter (fun a => a.correct)).length : Nat) : Int),
             time := strftimeYmdHMS now }] ∧
      (s.answers.filter (fun a => a.correct)).length ≤ qs.length ∧
      s.answers.length = qs.length := by
  intro qs s user now sink_ok hreach hdone hsaved
  obtain ⟨hq, hlen, hle, hcomp⟩ := quizInv_reachable hreach
  obtain ⟨hsub, hge⟩ := hcomp hdone
  rw [hsub] at hlen
  simp at hlen
  have hlen_eq : s.answers.length = qs.length := by rw [← hq]; omega
  refine ⟨?_, ?_, hlen_eq⟩
  · unfold quizRenderComplete
    rw [if_neg (by rw [hsaved]; exact Bool.false_ne_true)]
    rw [correct_count, List.countP_eq_length_filter]
  · calc (s.answers.filter (fun a => a.correct)).length
        ≤ s.answers.length := (List.filter_sublist _).length_le
      _ = qs.length := hlen_eq

/-- A one-question sample used to exhibit a concrete completed session. -/
def demoQs : List Question := [QUIZ_POOL.get ⟨0, by decide⟩]

/-- The state after the single question auto-submits at `time_left = 0`. -/
def demoS1 : QuizState := submitAnswer (initQuizState demoQs) 0

/-- The completed demo session. -/
def demoS2 : QuizState := { demoS1 with quiz_complete := true }

lemma demoReachable : QuizReachable demoQs demoS2 := by
  have h1 : QuizStep (initQuizState demoQs) demoS1 :=
    QuizStep.submit _ 0 rfl rfl (by decide)
  have h2 : QuizStep demoS1 demoS2 :=
    QuizStep.finish demoS1 rfl rfl (by decide)
  exact Relation.ReflTransGen.head h1 (Relation.ReflTransGen.single h2)

/-- C3 witness: the demo session's persisted score is its correct count, which
is bounded by its one sampled question. -/
theorem quiz_score_is_correct_count_witness :
    (demoS2.answers.filter (fun a => a.correct)).length ≤ demoQs.length ∧
    demoS2.answers.length = demoQs.length :=
  (quiz_score_is_correct_count demoQs demoS2
    ⟨"Asha Rao", "asha@example.com", "ECE", "GeoAshao"⟩
    ⟨2025, 1, 2, 3, 4, 5⟩ true demoReachable rfl rfl).2

/-- The answer recorded when a question's timer expires with no interaction:
the tentative selection is still the default first option. -/
def autoAnswer (q : Question) : Answer :=
  { user_answer := q.options.getD 0 "",
    correct := q.options.indexOf (q.options.getD 0 "") == q.answer_idx,
    time_left := 0, question_id := q.id }

/-- A mid-session state: question `i` on screen, `acc` already recorded. -/
def midState (qs : List Question) (i : Nat) (acc : List Answer) : QuizState :=
  { questions := qs, current_question := i, answers := acc, quiz_complete := false,
    data_saved := false, selected_answer := none, answer_submitted := false }

/-- The terminal state of a session in which every timer expired untouched. -/
def autoFinalState (qs : List Question) : QuizState :=
  { questions := qs, current_question := qs.length - 1, answers := qs.map autoAnswer,
    quiz_complete := true, data_saved := false, selected_answer := none,
    answer_submitted := true }

lemma auto_run_from (qs : List Question) :
    ∀ (n i : Nat) (acc : List Answer), i < qs.length → qs.length - i = n →
      Relation.ReflTransGen QuizStep (midState qs i acc)
        { questions := qs, current_question := qs.length - 1,
          answers := acc ++ (qs.drop i).map autoAnswer, quiz_complete := true,
          data_saved := false, selected_answer := none, answer_submitted := true } := by
  intro n
  induction n with
  | zero => intro i acc hi hn; omega
  | succ m ih =>
    intro i acc hi hn
    have hdrop : qs.drop i = qs[i] :: qs.drop (i + 1) := List.drop_eq_getElem_cons hi
    have hgetD : qs.getD i defaultQuestion = qs[i] := List.getD_eq_getElem qs _ hi
    have hstep1 : QuizStep (midState qs i acc) (submitAnswer (midState qs i acc) 0) :=
      QuizStep.submit _ 0 rfl rfl hi
    have hsub : submitAnswer (midState qs i acc) 0 =
        { questions := qs, current_question := i,
          answers := acc ++ [autoAnswer (qs.getD i defaultQuestion)],
          quiz_complete := false, data_saved := false, selected_answer := none,
          answer_submitted := true } := rfl
    by_cases hlast : i + 1 < qs.length
    · have hstep2 : QuizStep (submitAnswer (midState qs i acc) 0)
          (midState qs (i + 1) (acc ++ [autoAnswer (qs.getD i defaultQuestion)])) := by
        rw [hsub]
        exact QuizStep.next _ rfl rfl hlast
      have hrest := ih (i + 1) (acc ++ [autoAnswer (qs.getD i defaultQuestion)])
        hlast (by omega)
      have hans : acc ++ (qs.drop i).map autoAnswer
          = (acc ++ [autoAnswer (qs.getD i defaultQuestion)])
            ++ (qs.drop (i + 1)).map autoAnswer := by
        rw [hdrop, List.map_cons, hgetD, List.append_assoc, List.singleton_append]
      rw [hans]
      exact Relation.ReflTransGen.head hstep1
        (Relation.ReflTransGen.head hstep2 hrest)
    · have hstep2 : QuizStep (submitAnswer (midState qs i acc) 0)
          { questions := qs, current_question := i,
            answers := acc ++ [autoAnswer (qs.getD i defaultQuestion)],
            quiz_complete := true, data_saved := false, selected_answer := none,
            answer_submitted := true } := by
        rw [hsub]
        exact QuizStep.finish _ rfl rfl hlast
      have hi_eq : i = qs.length - 1 := by omega
      have hdrop2 : qs.drop (i + 1) = [] := List.drop_eq_nil_of_le (by omega)
      have hans : acc ++ (qs.drop i).map autoAnswer
          = acc ++ [autoAnswer (qs.getD i defaultQuestion)] := by
        rw [hdrop, List.map_cons, hdrop2, List.map_nil, hgetD]
      rw [hans, ← hi_eq]
      exact Relation.ReflTransGen.head hstep1 (Relation.ReflTransGen.single hstep2)

lemma forall₂_autoAnswer :
    ∀ qs : List Question,
      List.Forall₂
        (fun (ans : Answer) (q : Question) =>
          ans.user_answer = q.options.getD 0 "" ∧
          (ans.correct = true ↔ q.options.indexOf (q.options.getD 0 "") = q.answer_idx) ∧
          ans.time_left = 0 ∧ ans.question_id = q.id)
        (qs.map autoAnswer) qs := by
  intro qs
  induction qs with
  | nil => exact List.Forall₂.nil
  | cons q rest ih =>
    refine List.Forall₂.cons ⟨rfl, ?_, rfl, rfl⟩ ih
    simp [autoAnswer]

/-- C9: letting every per-question timer expire with no interaction still
completes the session: starting from the fresh state on any non-empty sample,
the timeout-submit/advance/finish transitions reach the terminal state; one
answer is recorded per sampled question, in order; each records the default
first option with remaining time 0, and its correctness flag is true exactly
when the first option's index equals the question's stored correct-option
index; the final score is the count of such matches. -/
theorem quiz_auto_submit_run :
    ∀ qs : List Question, qs ≠ [] →
      QuizReachable qs (autoFinalState qs) ∧
      (autoFinalState qs).quiz_complete = true ∧
      (autoFinalState qs).answers.length = qs.length ∧
      List.Forall₂
        (fun (ans : Answer) (q : Question) =>
          ans.user_answer = q.options.getD 0 "" ∧
          (ans.correct = true ↔ q.options.indexOf (q.options.getD 0 "") = q.answer_idx) ∧
          ans.time_left = 0 ∧ ans.question_id = q.id)
        (autoFinalState qs).answers qs ∧
      correct_count (autoFinalState qs)
        = qs.countP (fun q => q.options.indexOf (q.options.getD 0 "") == q.answer_idx) := by
  intro qs hne
  refine ⟨?_, rfl, by simp [autoFinalState], forall₂_autoAnswer qs, ?_⟩
  · have h := auto_run_from qs qs.length 0 [] (List.length_pos.mpr hne) (by omega)
    simpa [QuizReachable, initQuizState, midState, autoFinalState] using h
  · show (qs.map autoAnswer).countP (fun a => a.correct) = _
    rw [List.countP_map]
    rfl

/-- C9 witness: a three-question sample taken from the pool completes. -/
theorem quiz_auto_submit_run_witness :
    QUIZ_POOL.take 3 ≠ [] ∧ (autoFinalState (QUIZ_POOL.take 3)).quiz_complete = true :=
  ⟨by decide, (quiz_auto_submit_run (QUIZ_POOL.take 3) (by decide)).2.1⟩

/-! ## Exactly-once persistence (pages/mission_game.py and pages/quiz_game.py) -/

/-- The mission session state `st.session_state["mission_state"]` (the timer
fields are modelled at the transitions that read them). -/
structure MissionState where
  mission_name : String
  steps_correct : List String
  options : List String
  selected_sequence : List String
  game_over : Bool
  score : Nat
  data_saved : Bool
deriving DecidableEq

/-- The persistence-relevant part of the mission terminal render: every render
of the game-over branch recomputes `state["score"]`, and the block guarded by
`if not state["data_saved"]` writes one sheet row (when the sink is reachable),
calls `add_score`, and sets the flag. Returns the updated state, the number of
sink rows written and the entries handed to `add_score`. -/
def missionRenderComplete (user : CadetProfile) (now : DateTime) (sink_ok : Bool)
    (s : MissionState) : MissionState × Nat × List Entry :=
  if s.data_saved then
    ({ s with score := missionScore s.selected_sequence s.steps_correct }, 0, [])
  else
    ({ s with score := missionScore s.selected_sequence s.steps_correct,
              data_saved := true },
     if sink_ok then 1 else 0,
     [{ name := user.name, branch := user.branch, nickname := user.astronaut_name,
        score := (missionScore s.selected_sequence s.steps_correct : Int),
        time := strftimeYmdHMS now }])

/-- `n` successive re-renders of the mission terminal state, with the total
count of sink rows written and of `add_score` calls. -/
def missionRenderN (user : CadetProfile) (now : DateTime) (sink_ok : Bool) :
    Nat → MissionState → MissionState × Nat × Nat
  | 0, s => (s, 0, 0)
  | n + 1, s =>
    ((missionRenderN user now sink_ok n (missionRenderComplete user now sink_ok s).1).1,
     (missionRenderComplete user now sink_ok s).2.1
       + (missionRenderN user now sink_ok n (missionRenderComplete user now sink_ok s).1).2.1,
     (missionRenderComplete user now sink_ok s).2.2.length
       + (missionRenderN user now sink_ok n (missionRenderComplete user now sink_ok s).1).2.2)

/-- `n` successive re-renders of the quiz terminal state. -/
def quizRenderN (user : CadetProfile) (now : DateTime) (sink_ok : Bool) :
    Nat → QuizState → QuizState × Nat × Nat
  | 0, s => (s, 0, 0)
  | n + 1, s =>
    ((quizRenderN user now sink_ok n (quizRenderComplete user now sink_ok s).1).1,
     (quizRenderComplete user now sink_ok s).2.1
       + (quizRenderN user now sink_ok n (quizRenderComplete user now sink_ok s).1).2.1,
     (quizRenderComplete user now sink_ok s).2.2.length
       + (quizRenderN user now sink_ok n (quizRenderComplete user now sink_ok s).1).2.2)

lemma missionRenderComplete_saved (u : CadetProfile) (now : DateTime) (ok : Bool)
    (s : MissionState) (h : s.data_saved = true) :
    missionRenderComplete u now ok s
      = ({ s with score := missionScore s.selected_sequence s.steps_correct }, 0, []) := by
  unfold missionRenderComplete
  rw [if_pos h]

lemma quizRenderComplete_saved (u : CadetProfile) (now : DateTime) (ok : Bool)
    (s : QuizState) (h : s.data_saved = true) :
    quizRenderComplete u now ok s = (s, 0, []) := by
  unfold quizRenderComplete
  rw [if_pos h]

lemma missionRenderN_saved (u : CadetProfile) (now : DateTime) (ok : Bool) :
    ∀ (n : Nat) (s : MissionState), s.data_saved = true →
      (missionRenderN u now ok n s).2.1 = 0 ∧ (missionRenderN u now ok n s).2.2 = 0 := by
  intro n
  induction n with
  | zero => intro s _; exact ⟨rfl, rfl⟩
  | succ m ih =>
    intro s h
    have hr := missionRenderComplete_saved u now ok s h
    have ih' := ih { s with score := missionScore s.selected_sequence s.steps_correct } h
    simp only [missionRenderN, hr]
    simp [ih'.1, ih'.2]

lemma quizRenderN_saved (u : CadetProfile) (now : DateTime) (ok : Bool) :
    ∀ (n : Nat) (s : QuizState), s.data_saved = true →
      (quizRenderN u now ok n s).2.1 = 0 ∧ (quizRenderN u now ok n s).2.2 = 0 := by
  intro n
  induction n with
  | zero => intro s _; exact ⟨rfl, rfl⟩
  | succ m ih =>
    intro s h
    have hr := quizRenderComplete_saved u now ok s h
    have ih' := ih s h
    simp only [quizRenderN, hr]
    simp [ih'.1, ih'.2]

lemma missionRenderComplete_unsaved (u : CadetProfile) (now : DateTime) (ok : Bool)
    (s : MissionState) (h : s.data_saved = false) :
    missionRenderComplete u now ok s
      = ({ s with score := missionScore s.selected_sequence s.steps_correct,
                  data_saved := true },
         if ok then 1 else 0,
         [{ name := u.name, branch := u.branch, nickname := u.astronaut_name,
            score := (missionScore s.selected_sequence s.steps_correct : Int),
            time := strftimeYmdHMS now }]) := by
  unfold missionRenderComplete
  rw [if_neg (by rw [h]; exact Bool.false_ne_true)]

lemma quizRenderComplete_unsaved (u : CadetProfile) (now : DateTime) (ok : Bool)
    (s : QuizState) (h : s.data_saved = false) :
    quizRenderComplete u now ok s
      = ({ s with data_saved := true },
         if ok then 1 else 0,
         [{ name := u.name, branch := u.branch, nickname := u.astronaut_name,
            score := (correct_count s : Int), time := strftimeYmdHMS now }]) := by
  unfold quizRenderComplete
  rw [if_neg (by rw [h]; exact Bool.false_ne_true)]

/-- C8: re-rendering a completed session any number of times performs the
leaderboard append exactly once and the sink-row write at most once, for both
games: starting unsaved, `n + 1` renders total exactly one `add_score` call and
at most one sink row; and once `data_saved` is true, further renders perform no
append and no sink write at all. -/
theorem persistence_exactly_once :
    ∀ (user : CadetProfile) (now : DateTime) (sink_ok : Bool) (n : Nat)
      (sm : MissionState) (sq : QuizState),
      sm.data_saved = false → sq.data_saved = false →
      ((missionRenderN user now sink_ok (n + 1) sm).2.2 = 1 ∧
       (missionRenderN user now sink_ok (n + 1) sm).2.1 ≤ 1 ∧
       (quizRenderN user now sink_ok (n + 1) sq).2.2 = 1 ∧
       (quizRenderN user now sink_ok (n + 1) sq).2.1 ≤ 1) ∧
      (∀ (m : Nat) (sm2 : MissionState) (sq2 : QuizState),
        sm2.data_saved = true → sq2.data_saved = true →
        (missionRenderN user now sink_ok m sm2).2.1 = 0 ∧
        (missionRenderN user now sink_ok m sm2).2.2 = 0 ∧
        (quizRenderN user now sink_ok m sq2).2.1 = 0 ∧
        (quizRenderN user now sink_ok m sq2).2.2 = 0) := by
  intro user now sink_ok n sm sq hm hq
  constructor
  · have hrm := missionRenderComplete_unsaved user now sink_ok sm hm
    have hrq := quizRenderComplete_unsaved user now sink_ok sq hq
    have hm' := missionRenderN_saved user now sink_ok n
      { sm with score := missionScore sm.selected_sequence sm.steps_correct,
                data_saved := true } rfl
    have hq' := quizRenderN_saved user now sink_ok n { sq with data_saved := true } rfl
    refine ⟨?_, ?_, ?_, ?_⟩
    · simp only [missionRenderN, hrm]
      simp [hm'.2]
    · simp only [missionRenderN, hrm]
      simp only [hm'.1]
      cases sink_ok <;> simp
    · simp only [quizRenderN, hrq]
      simp [hq'.2]
    · simp only [quizRenderN, hrq]
      simp only [hq'.1]
      cases sink_ok <;> simp
  · intro m sm2 sq2 h2 h3
    exact ⟨(missionRenderN_saved user now sink_ok m sm2 h2).1,
           (missionRenderN_saved user now sink_ok m sm2 h2).2,
           (quizRenderN_saved user now sink_ok m sq2 h3).1,
           (quizRenderN_saved user now sink_ok m sq2 h3).2⟩

/-- C8 witness: one fresh terminal render of each game appends exactly once. -/
theorem persistence_exactly_once_witness :
    (missionRenderN ⟨"Asha Rao", "asha@example.com", "ECE", "GeoAshao"⟩
        ⟨2025, 1, 2, 3, 4, 5⟩ true 1
        ⟨"Apollo 11", [], [], [], true, 0, false⟩).2.2 = 1 ∧
    (quizRenderN ⟨"Asha Rao", "asha@example.com", "ECE", "GeoAshao"⟩
        ⟨2025, 1, 2, 3, 4, 5⟩ true 1 (initQuizState [])).2.2 = 1 :=
  ⟨(persistence_exactly_once _ _ true 0 _ (initQuizState []) rfl rfl).1.1,
   (persistence_exactly_once ⟨"Asha Rao", "asha@example.com", "ECE", "GeoAshao"⟩
     ⟨2025, 1, 2, 3, 4, 5⟩ true 0 ⟨"Apollo 11", [], [], [], true, 0, false⟩
     (initQuizState []) rfl rfl).1.2.2.1⟩

end Apogee
